import Mathlib

/-!
Verification of the kigali-sim test-migration scripts
(`fix_test_migration.py`, `fix_remaining_setstream.py`,
`fix_set_executor_test.py`).

The scripts are pure text rewriters: file contents are read whole, a few
regular-expression substitutions and literal replacements are applied, and
the file is written back only when the text changed.  We embed file text as
`List Char` and model the exact regular expressions used by the scripts
(which are deterministic on these patterns: every quantifier is bounded by a
character class excluding its closing delimiter, so greedy matching with
backtracking collapses to a first-delimiter scan, with a one-character
give-back when a `\s*` gap swallows the whole segment).
-/

namespace Kigali

/-- File text is modelled as a list of characters. -/
abbrev Content := List Char

/-- Python's `\s` character class: space, tab, newline, carriage return,
vertical tab, form feed. -/
def isWS (c : Char) : Bool :=
  c = ' ' || c = '\t' || c = '\n' || c = '\r' || c = '\x0b' || c = '\x0c'

/-- Decidable prefix test on character lists. -/
def isPre : Content → Content → Bool
  | [], _ => true
  | _ :: _, [] => false
  | p :: ps, c :: cs => p = c && isPre ps cs

/-- Decidable substring test: `p` occurs (contiguously) somewhere in the text.
Models Python's `in` operator on strings and `re.search` of a literal. -/
def containsSub (p : Content) : Content → Bool
  | [] => isPre p []
  | c :: cs => isPre p (c :: cs) || containsSub p cs

/-- Number of positions at which `p` occurs in the text (used to state
"inserted exactly once" facts). -/
def countSub (p : Content) : Content → Nat
  | [] => 0
  | c :: cs => (if isPre p (c :: cs) then 1 else 0) + countSub p cs

/-- Split at the first occurrence of the character `x`: returns the part
strictly before it and the part strictly after it.  `none` when `x` is
absent.  This is the deterministic core of a greedy `([^x]+)x` regex
fragment. -/
def breakAt (x : Char) : Content → Option (Content × Content)
  | [] => none
  | c :: cs =>
    if c = x then some ([], cs)
    else
      match breakAt x cs with
      | none => none
      | some (a, b) => some (c :: a, b)

/-- Strip an exact literal from the front of the text, returning the rest. -/
def stripLit : Content → Content → Option Content
  | [], t => some t
  | _ :: _, [] => none
  | p :: ps, c :: cs => if p = c then stripLit ps cs else none

/-- Semantics of a `\s*([^Z]+)` group whose captured segment `u` runs up to
the closing delimiter `Z`: the greedy `\s*` eats the whitespace prefix but
gives one character back when the whole segment is whitespace, because the
`+` needs at least one character. -/
def wsAdjust (u : Content) : Content :=
  u.drop (min (u.takeWhile isWS).length (u.length - 1))

/-- Decimal digit characters, used by Python's string formatting of the
counter. -/
def digitChar (n : Nat) : Char :=
  if n = 0 then '0' else if n = 1 then '1' else if n = 2 then '2'
  else if n = 3 then '3' else if n = 4 then '4' else if n = 5 then '5'
  else if n = 6 then '6' else if n = 7 then '7' else if n = 8 then '8'
  else if n = 9 then '9' else '0'

/-- Value of a decimal digit character (inverse of `digitChar` below 10). -/
def digitVal (c : Char) : Nat :=
  if c = '0' then 0 else if c = '1' then 1 else if c = '2' then 2
  else if c = '3' then 3 else if c = '4' then 4 else if c = '5' then 5
  else if c = '6' then 6 else if c = '7' then 7 else if c = '8' then 8
  else if c = '9' then 9 else 0

/-- Fuel-driven decimal rendering helper (structural recursion so that the
kernel can evaluate it). -/
def toDecAux : Nat → Nat → Content
  | 0, _ => []
  | fuel + 1, n =>
    if n < 10 then [digitChar n]
    else toDecAux fuel (n / 10) ++ [digitChar (n % 10)]

/-- Decimal rendering of a natural number, as Python's `f"{counter}"`. -/
def toDec (n : Nat) : Content := toDecAux (n + 1) n

/-- Decimal parsing, the left inverse of `toDec`. -/
def fromDec (l : Content) : Nat := l.foldl (fun a c => a * 10 + digitVal c) 0

/-- Join rows with newline separators (inverse of `splitLines` on
newline-free rows). -/
def joinNL : List Content → Content
  | [] => []
  | [l] => l
  | l :: ls => l ++ '\n' :: joinNL ls

/-- Split text into its physical lines at each newline character. -/
def splitLines : Content → List Content
  | [] => [[]]
  | c :: cs =>
    if c = '\n' then [] :: splitLines cs
    else
      match splitLines cs with
      | [] => [[c]]
      | l :: ls => (c :: l) :: ls

/-- The text contains no newline character. -/
def noNL (l : Content) : Bool := l.all (fun c => !(c = '\n'))

/-- Consecutive run of naturals `k, k+1, ..., k+m-1`; the values handed out
by a monotonically increasing counter. -/
def natRun : Nat → Nat → List Nat
  | _, 0 => []
  | k, m + 1 => k :: natRun (k + 1) m

/-! ### The three regular-expression matchers

`fix_test_migration.py` uses
`engine\.setStream\(([^,]+),\s*([^,]+),\s*([^)]+)\);`.

`fix_remaining_setstream.py` uses
`(\s+)engine\.setStream\("([^"]+)",\s*([^,]+),\s*([^)]+)\);` for the
single-line pass and
`(\s+)engine\.setStream\("([^"]+)",\s*([^,]+),\s*\n\s*([^)]+)\);` for the
multi-line pass.

Each matcher takes the text at a candidate start position and returns the
captured groups together with the rest of the text after the match, or
`none` when the pattern does not match at this position.  Because `[^,]`,
`[^"]` and `[^)]` exclude exactly the following delimiter, the greedy
engine's behaviour is the deterministic one computed here (with `wsAdjust`
covering the one-character give-back of a `\s*` before a `+` group). -/

/-- Match `engine\.setStream\(([^,]+),\s*([^,]+),\s*([^)]+)\);` at the start
of `t`.  Returns `((name, value, yearMatcher), rest)`. -/
def matchP1 (t : Content) : Option ((Content × Content × Content) × Content) :=
  match stripLit "engine.setStream(".data t with
  | none => none
  | some t1 =>
    match breakAt ',' t1 with
    | none => none
    | some (g1, t2) =>
      if g1 = [] then none
      else
        match breakAt ',' t2 with
        | none => none
        | some (u, t3) =>
          if u = [] then none
          else
            match breakAt ')' t3 with
            | none => none
            | some (v, t4) =>
              if v = [] then none
              else
                match t4 with
                | ';' :: t5 => some ((g1, wsAdjust u, wsAdjust v), t5)
                | _ => none

/-- Match `(\s+)engine\.setStream\("([^"]+)",\s*([^,]+),\s*([^)]+)\);` at the
start of `t`.  Returns `((indent, name, value, yearMatcher), rest)`; the
captured `\s+` group is the maximal whitespace run at the start position. -/
def matchP2 (t : Content) :
    Option ((Content × Content × Content × Content) × Content) :=
  let ind := t.takeWhile isWS
  if ind = [] then none
  else
    match stripLit "engine.setStream(\"".data (t.drop ind.length) with
    | none => none
    | some t1 =>
      match breakAt '"' t1 with
      | none => none
      | some (g2, t2) =>
        if g2 = [] then none
        else
          match t2 with
          | ',' :: t3 =>
            match breakAt ',' t3 with
            | none => none
            | some (u, t4) =>
              if u = [] then none
              else
                match breakAt ')' t4 with
                | none => none
                | some (v, t5) =>
                  if v = [] then none
                  else
                    match t5 with
                    | ';' :: t6 => some ((ind, g2, wsAdjust u, wsAdjust v), t6)
                    | _ => none
          | _ => none

/-- Whitespace run after the last newline of a whitespace run `W`. -/
def afterLastNL (w : Content) : Content :=
  (w.reverse.takeWhile (fun c => !(c = '\n'))).reverse

/-- Capture of the `\s*\n\s*([^)]+)` tail of the multi-line pattern, given
the maximal whitespace run `w` after the second comma and the remaining text
`r` (which starts with a non-whitespace character).  The greedy engine uses
the last newline of `w` for the literal `\n` and backtracks to earlier
newlines only when the `[^)]+` group would otherwise be empty. -/
def multilineTail (w r : Content) : Option (Content × Content) :=
  match breakAt ')' r with
  | none => none
  | some (restUpTo, t4) =>
    match t4 with
    | ';' :: t5 =>
      if restUpTo = [] then
        match (afterLastNL w).reverse with
        | b :: _ => some ([b], t5)
        | [] => if 2 ≤ w.count '\n' then some (['\n'], t5) else none
      else some (restUpTo, t5)
    | _ => none

/-- Match
`(\s+)engine\.setStream\("([^"]+)",\s*([^,]+),\s*\n\s*([^)]+)\);` at the
start of `t`.  Returns `((indent, name, value, yearMatcher), rest)`. -/
def matchP3 (t : Content) :
    Option ((Content × Content × Content × Content) × Content) :=
  let ind := t.takeWhile isWS
  if ind = [] then none
  else
    match stripLit "engine.setStream(\"".data (t.drop ind.length) with
    | none => none
    | some t1 =>
      match breakAt '"' t1 with
      | none => none
      | some (g2, t2) =>
        if g2 = [] then none
        else
          match t2 with
          | ',' :: t3 =>
            match breakAt ',' t3 with
            | none => none
            | some (u, t4) =>
              if u = [] then none
              else
                let w := t4.takeWhile isWS
                if w.count '\n' = 0 then none
                else
                  match multilineTail w (t4.drop w.length) with
                  | none => none
                  | some (g4, t5) => some ((ind, g2, wsAdjust u, g4), t5)
          | _ => none

/-! ### Replacement templates

The templates are copied verbatim from the Python f-strings; rows are
joined by newlines via `joinNL` so that line structure is explicit. -/

/-- Replacement template of `replace_setstream` in `fix_test_migration.py`:
continuation rows carry a fixed 8-space indent and the final row a fixed
4-space indent, exactly as in the source f-string. -/
def rend1 (k : Nat) (n v y : Content) : Content :=
  joinNL
    [ "StreamUpdate update".data ++ toDec k ++ " = new StreamUpdateBuilder()".data,
      "        .setName(".data ++ n ++ ")".data,
      "        .setValue(".data ++ v ++ ")".data,
      "        .setYearMatcher(".data ++ y ++ ")".data,
      "        .inferSubtractRecycling()".data,
      "        .build();".data,
      "    engine.executeStreamUpdate(update".data ++ toDec k ++ ");".data ]

/-- Replacement template shared by `replace_setstream` and
`replace_multiline_setstream` in `fix_remaining_setstream.py` (the two
closures render identical text): every row is prefixed by the captured
whitespace group, builder rows with four further spaces, and the name is
re-quoted. -/
def rend2 (ind : Content) (k : Nat) (n v y : Content) : Content :=
  joinNL
    [ ind ++ "StreamUpdate update".data ++ toDec k ++ " = new StreamUpdateBuilder()".data,
      ind ++ "    .setName(\"".data ++ n ++ "\")".data,
      ind ++ "    .setValue(".data ++ v ++ ")".data,
      ind ++ "    .setYearMatcher(".data ++ y ++ ")".data,
      ind ++ "    .inferSubtractRecycling()".data,
      ind ++ "    .build();".data,
      ind ++ "engine.executeStreamUpdate(update".data ++ toDec k ++ ");".data ]

/-! ### The substitution scanner

`re.sub` scans the subject left to right, tries the pattern at each
position, replaces a match, and resumes after the matched span without
rescanning the emitted replacement.  The scanner is generic in the matcher
and the renderer; it threads the `counter` variable of the scripts and also
records the counter values consumed, returning
`(final counter, output, counters used)`.  The fuel argument is always
instantiated with the length of the subject, which every step strictly
decreases, so it never runs out. -/
def scanSub (m : Content → Option (α × Content)) (rend : Nat → α → Content) :
    Nat → Nat → Content → Nat × Content × List Nat
  | 0, k, t => (k, t, [])
  | _ + 1, k, [] => (k, [], [])
  | fuel + 1, k, c :: cs =>
    match m (c :: cs) with
    | some (a, rest) =>
      let r := scanSub m rend fuel (k + 1) rest
      (r.1, rend k a ++ r.2.1, k :: r.2.2)
    | none =>
      let r := scanSub m rend fuel k cs
      (r.1, c :: r.2.1, r.2.2)

/-- Renderer adapter for the `fix_test_migration.py` closure. -/
def rend1u (k : Nat) (a : Content × Content × Content) : Content :=
  rend1 k a.1 a.2.1 a.2.2

/-- Renderer adapter for the `fix_remaining_setstream.py` closures. -/
def rend2u (k : Nat) (a : Content × Content × Content × Content) : Content :=
  rend2 a.1 k a.2.1 a.2.2.1 a.2.2.2

/-- Does the `fix_test_migration.py` pattern match anywhere in the text? -/
def hasMatchP1 : Content → Bool
  | [] => (matchP1 []).isSome
  | c :: cs => (matchP1 (c :: cs)).isSome || hasMatchP1 cs

/-- Does a generic matcher match anywhere in the text? -/
def hasMatch (m : Content → Option (α × Content)) : Content → Bool
  | [] => (m []).isSome
  | c :: cs => (m (c :: cs)).isSome || hasMatch m cs

/-! ### Literal replacement

Python's `str.replace(old, new)` replaces every non-overlapping occurrence
left to right and does not rescan the inserted text. -/

/-- Replace every occurrence of `p` by `r`, scanning left to right.  The
fuel is instantiated with the length of the subject (each step consumes at
least one character when `p` is nonempty). -/
def replaceAll (p r : Content) : Nat → Content → Content
  | 0, t => t
  | _ + 1, [] => []
  | fuel + 1, c :: cs =>
    if isPre p (c :: cs) then r ++ replaceAll p r fuel ((c :: cs).drop p.length)
    else c :: replaceAll p r fuel cs

/-! ### `fix_test_migration.py` -/

/-- The marker substring whose presence suppresses import insertion. -/
def marker : Content := "StreamUpdate".data

/-- The anchor import line after which new imports are inserted. -/
def anchorLine : Content := "import org.kigalisim.engine.state.YearMatcher;".data

/-- The anchor line followed by the two inserted import lines (the
`new_imports` string of `fix_test_file`). -/
def newImports : Content :=
  anchorLine ++
    "\nimport org.kigalisim.engine.support.StreamUpdate;\nimport org.kigalisim.engine.support.StreamUpdateBuilder;".data

/-- Import-augmentation step of `fix_test_file`: when the marker is absent
and the anchor line is found, every occurrence of the anchor string is
replaced by itself plus the two import lines (Python's `str.replace`
replaces all occurrences). -/
def addImports (c : Content) : Content :=
  if containsSub marker c then c
  else if containsSub anchorLine c then replaceAll anchorLine newImports c.length c
  else c

/-- Pure transformation applied by `fix_test_file` to the file text: import
augmentation followed by the global single-line substitution with the
counter seeded at 1. -/
def fixContentT (c : Content) : Content :=
  (scanSub matchP1 rend1u (addImports c).length 1 (addImports c)).2.1

/-- Counter values consumed by the substitution pass of `fix_test_file`. -/
def usedFixTest (c : Content) : List Nat :=
  (scanSub matchP1 rend1u (addImports c).length 1 (addImports c)).2.2

/-- Console outcome of one file migration. -/
inductive Report where
  | fixedMsg
  | noChangesMsg
deriving DecidableEq

/-- Observable outcome of `fix_test_file` on one file: the content on disk
afterwards, whether a write occurred, the boolean return value and the
printed message. -/
structure DriverResult where
  fileText : Content
  wrote : Bool
  returned : Bool
  report : Report
deriving DecidableEq

/-- Driver `fix_test_file`: apply the transformation, then write back and
report `Fixed` exactly when the text changed, otherwise leave the file
untouched and report `No changes needed`. -/
def fixTestFile (c : Content) : DriverResult :=
  let t := fixContentT c
  if t ≠ c then ⟨t, true, true, .fixedMsg⟩ else ⟨c, false, false, .noChangesMsg⟩

/-! ### `fix_remaining_setstream.py` -/

/-- Pure transformation of `fix_single_thread_engine_test`, together with
the counter values consumed: the single-line pass (counter seeded at 10)
followed by the multi-line pass continuing with the same counter (the
closures share the `counter` variable via `nonlocal`). -/
def fixSingleThreadRun (c : Content) : Content × List Nat :=
  let r1 := scanSub matchP2 rend2u c.length 10 c
  let r2 := scanSub matchP3 rend2u r1.2.1.length r1.1 r1.2.1
  (r2.2.1, r1.2.2 ++ r2.2.2)

/-- Text produced by `fix_single_thread_engine_test` for given file text. -/
def fixSingleThreadT (c : Content) : Content := (fixSingleThreadRun c).1

/-- Counter values consumed across both passes of
`fix_single_thread_engine_test`. -/
def usedSingleThread (c : Content) : List Nat := (fixSingleThreadRun c).2

/-- The `old_call` literal of `fix_floor_operation_test`. -/
def oldCall : Content :=
  "    engine.setStream(\"import\", new EngineNumber(BigDecimal.valueOf(50), \"kg\"), Optional.empty());".data

/-- The `new_call` literal of `fix_floor_operation_test`. -/
def newCall : Content :=
  joinNL
    [ "    StreamUpdate importUpdate = new StreamUpdateBuilder()".data,
      "        .setName(\"import\")".data,
      "        .setValue(new EngineNumber(BigDecimal.valueOf(50), \"kg\"))".data,
      "        .setYearMatcher(Optional.empty())".data,
      "        .inferSubtractRecycling()".data,
      "        .build();".data,
      "    engine.executeStreamUpdate(importUpdate);".data ]

/-- Pure transformation of `fix_floor_operation_test`: literal whole-string
replacement of the known call line by the builder block. -/
def fixFloorT (c : Content) : Content := replaceAll oldCall newCall c.length c

/-! ### Batch orchestrator of `fix_test_migration.py` -/

/-- Per-file console event of the batch loop in `main`. -/
inductive Event where
  | notFound (path : String)
  | fixedFile (path : String)
  | noChangesFile (path : String)
deriving DecidableEq

/-- Path a batch event refers to. -/
def eventPath : Event → String
  | .notFound p => p
  | .fixedFile p => p
  | .noChangesFile p => p

/-- Did this event count towards `total_fixed`? -/
def isFixedEvent : Event → Bool
  | .fixedFile _ => true
  | _ => false

/-- Filesystem model: a partial map from paths to file contents. -/
abbrev FS := String → Option Content

/-- Batch loop of `main`: process the listed paths in order; a missing path
is reported as not found and skipped without invoking the driver; an
existing path is migrated, the write (if any) is applied to the filesystem,
and the changed-file count is incremented exactly when `fix_test_file`
returned true.  Returns the ordered event list, the final count and the
final filesystem. -/
def runBatch (fs : FS) : List String → List Event × Nat × FS
  | [] => ([], 0, fs)
  | p :: ps =>
    match fs p with
    | none =>
      let r := runBatch fs ps
      (Event.notFound p :: r.1, r.2.1, r.2.2)
    | some c =>
      let d := fixTestFile c
      let fs2 : FS := if d.wrote then fun q => if q = p then some d.fileText else fs q else fs
      let r := runBatch fs2 ps
      ((if d.returned then Event.fixedFile p else Event.noChangesFile p) :: r.1,
        (if d.returned then 1 else 0) + r.2.1, r.2.2)

/-- The fixed file list of `main` in `fix_test_migration.py`. -/
def testFiles : List String :=
  [ "/home/ubuntu/kigali-sim/engine/src/test/java/org/kigalisim/lang/operation/ChangeOperationTest.java",
    "/home/ubuntu/kigali-sim/engine/src/test/java/org/kigalisim/lang/operation/FloorOperationTest.java",
    "/home/ubuntu/kigali-sim/engine/src/test/java/org/kigalisim/lang/operation/GetStreamOperationTest.java",
    "/home/ubuntu/kigali-sim/engine/src/test/java/org/kigalisim/lang/operation/RechargeOperationTest.java",
    "/home/ubuntu/kigali-sim/engine/src/test/java/org/kigalisim/lang/operation/ReplaceOperationTest.java",
    "/home/ubuntu/kigali-sim/engine/src/test/java/org/kigalisim/lang/operation/RetireOperationTest.java",
    "/home/ubuntu/kigali-sim/engine/src/test/java/org/kigalisim/engine/SingleThreadEngineTest.java",
    "/home/ubuntu/kigali-sim/engine/src/test/java/org/kigalisim/engine/recalc/RecalcOperationBuilderIntegrationTest.java",
    "/home/ubuntu/kigali-sim/engine/src/test/java/org/kigalisim/engine/support/ChangeExecutorTest.java" ]

/-- Generated identifier for a counter value, as rendered into the
templates (`update<counter>`). -/
def idOf (k : Nat) : Content := "update".data ++ toDec k

/-- The literal required by the `fix_test_migration.py` pattern. -/
def setStreamLit : Content := "engine.setStream(".data

/-- The literal required by both `fix_remaining_setstream.py` patterns. -/
def setStreamQuoteLit : Content := "engine.setStream(\"".data

/-- The two import lines inserted after the anchor (the tail of
`new_imports` following the anchor itself). -/
def importsTail : Content :=
  "\nimport org.kigalisim.engine.support.StreamUpdate;\nimport org.kigalisim.engine.support.StreamUpdateBuilder;".data

/-- The first inserted import line, used to count insertions. -/
def importLineA : Content :=
  "import org.kigalisim.engine.support.StreamUpdate;".data

/-- Input on which `fix_test_file` is not idempotent: the rewritten second
argument still contains `engine.setStream(` and recombines with the commas
of the following line into a fresh match on the second run. -/
def c1x : Content :=
  "engine.setStream(a, engine.setStream(b, c);\nfoo(x, y, z);".data

/-- Call site indented by eight spaces, exhibiting the fixed-indent
templates of `fix_test_migration.py`. -/
def c2x : Content := "        engine.setStream(a, b, c);".data

/-- File containing the anchor import line twice (and no marker). -/
def c6x : Content := anchorLine ++ '\n' :: anchorLine

/-- File containing the anchor import line exactly once (and no marker). -/
def c6w : Content := "x\n".data ++ anchorLine ++ "\ny".data

/-! ### Basic lemmas about prefixes and substring occurrence -/

theorem isPre_self_append (p b : Content) : isPre p (p ++ b) = true := by
  induction p with
  | nil => rfl
  | cons c cs ih => simp [isPre, ih]

theorem isPre_extend {p s : Content} (b : Content) (h : isPre p s = true) :
    isPre p (s ++ b) = true := by
  induction p generalizing s with
  | nil => rfl
  | cons c cs ih =>
    cases s with
    | nil => simp [isPre] at h
    | cons d ds =>
      simp [isPre] at h
      simp [isPre, h.1, ih h.2]

theorem containsSub_of_isPre {p t : Content} (h : isPre p t = true) :
    containsSub p t = true := by
  cases t with
  | nil =>
    cases p with
    | nil => rfl
    | cons c cs => simp [isPre] at h
  | cons c cs => simp [containsSub, h]

theorem containsSub_cons {p t : Content} (c : Char) (h : containsSub p t = true) :
    containsSub p (c :: t) = true := by
  simp [containsSub, h]

theorem containsSub_append_right {p b : Content} (a : Content)
    (h : containsSub p b = true) : containsSub p (a ++ b) = true := by
  induction a with
  | nil => simpa using h
  | cons c cs ih => exact containsSub_cons c ih

theorem containsSub_append_left {p a : Content} (b : Content)
    (h : containsSub p a = true) : containsSub p (a ++ b) = true := by
  induction a with
  | nil =>
    cases p with
    | nil => exact containsSub_of_isPre (by rfl)
    | cons c cs => simp [containsSub, isPre] at h
  | cons c cs ih =>
    simp only [containsSub, Bool.or_eq_true] at h
    rcases h with h | h
    · exact containsSub_of_isPre (by simpa using isPre_extend b h)
    · exact containsSub_cons c (ih h)

theorem containsSub_self_append (p b : Content) : containsSub p (p ++ b) = true :=
  containsSub_of_isPre (isPre_self_append p b)

theorem stripLit_isPre {p t r : Content} (h : stripLit p t = some r) :
    isPre p t = true := by
  induction p generalizing t with
  | nil => rfl
  | cons c cs ih =>
    cases t with
    | nil => simp [stripLit] at h
    | cons d ds =>
      by_cases hc : c = d
      · subst hc
        simp [stripLit] at h
        simp [isPre, ih h]
      · simp [stripLit, hc] at h

theorem containsSub_false_cons {p : Content} {c : Char} {cs : Content}
    (h : containsSub p (c :: cs) = false) :
    isPre p (c :: cs) = false ∧ containsSub p cs = false := by
  simp only [containsSub, Bool.or_eq_false_iff] at h
  exact h

/-! ### Lemmas about the scanner -/

theorem hasMatch_false {m : Content → Option (α × Content)} {L : Content}
    (hm : ∀ s, (m s).isSome = true → containsSub L s = true) :
    ∀ {t : Content}, containsSub L t = false → hasMatch m t = false := by
  intro t
  induction t with
  | nil =>
    intro h
    simp only [hasMatch]
    cases hs : (m []).isSome
    · rfl
    · exact absurd (hm [] hs) (by simp [h])
  | cons c cs ih =>
    intro h
    obtain ⟨h1, h2⟩ := containsSub_false_cons h
    simp only [hasMatch, Bool.or_eq_false_iff]
    refine ⟨?_, ih h2⟩
    cases hs : (m (c :: cs)).isSome
    · rfl
    · have := hm _ hs
      rw [this] at h
      exact h

theorem scanSub_of_hasMatch_false {m : Content → Option (α × Content)}
    {rend : Nat → α → Content} :
    ∀ (fuel k : Nat) {t : Content}, hasMatch m t = false →
      scanSub m rend fuel k t = (k, t, []) := by
  intro fuel
  induction fuel with
  | zero => intro k t _; rfl
  | succ f ih =>
    intro k t h
    cases t with
    | nil => rfl
    | cons c cs =>
      simp only [hasMatch, Bool.or_eq_false_iff] at h
      have hnone : m (c :: cs) = none := by
        cases hm : m (c :: cs)
        · rfl
        · simp [hm] at h
      simp only [scanSub, hnone]
      rw [ih k h.2]

theorem scanSub_counters {m : Content → Option (α × Content)}
    {rend : Nat → α → Content} :
    ∀ (fuel k : Nat) (t : Content),
      k ≤ (scanSub m rend fuel k t).1 ∧
      (scanSub m rend fuel k t).2.2 =
        natRun k ((scanSub m rend fuel k t).1 - k) := by
  intro fuel
  induction fuel with
  | zero => intro k t; exact ⟨Nat.le_refl k, by simp [scanSub, Nat.sub_self, natRun]⟩
  | succ f ih =>
    intro k t
    cases t with
    | nil => exact ⟨Nat.le_refl k, by simp [scanSub, Nat.sub_self, natRun]⟩
    | cons c cs =>
      cases hm : m (c :: cs) with
      | none =>
        obtain ⟨h1, h2⟩ := ih k cs
        simp only [scanSub, hm]
        exact ⟨h1, h2⟩
      | some a =>
        obtain ⟨h1, h2⟩ := ih (k + 1) a.2
        have hk : (scanSub m rend f (k + 1) a.2).1 - k =
            ((scanSub m rend f (k + 1) a.2).1 - (k + 1)) + 1 := by omega
        simp only [scanSub, hm]
        refine ⟨Nat.le_of_succ_le h1, ?_⟩
        rw [hk, natRun, h2]

theorem scanSub_out_eq_or_contains {m : Content → Option (α × Content)}
    {rend : Nat → α → Content} {mk : Content}
    (hpre : ∀ k a, isPre mk (rend k a) = true) :
    ∀ (fuel k : Nat) (t : Content),
      (scanSub m rend fuel k t).2.1 = t ∨
      containsSub mk (scanSub m rend fuel k t).2.1 = true := by
  intro fuel
  induction fuel with
  | zero => intro k t; exact Or.inl rfl
  | succ f ih =>
    intro k t
    cases t with
    | nil => exact Or.inl rfl
    | cons c cs =>
      cases hm : m (c :: cs) with
      | none =>
        rcases ih k cs with h | h
        · exact Or.inl (by simp only [scanSub, hm]; rw [h])
        · exact Or.inr (by simp only [scanSub, hm]; exact containsSub_cons c h)
      | some a =>
        refine Or.inr ?_
        simp only [scanSub, hm]
        exact containsSub_of_isPre
          (isPre_extend _ (hpre k a.1))

/-! ### The matchers require their literal -/

theorem matchP1_isSome_containsSub {s : Content}
    (h : (matchP1 s).isSome = true) :
    containsSub "engine.setStream(".data s = true := by
  unfold matchP1 at h
  cases hs : stripLit "engine.setStream(".data s with
  | none => rw [hs] at h; simp at h
  | some t1 => exact containsSub_of_isPre (stripLit_isPre hs)

theorem takeWhile_append_drop (p : Char → Bool) (t : Content) :
    t.takeWhile p ++ t.drop (t.takeWhile p).length = t := by
  induction t with
  | nil => rfl
  | cons c cs ih =>
    by_cases hc : p c
    · simp only [List.takeWhile_cons, hc, if_true, List.length_cons,
        List.drop_succ_cons, List.cons_append]
      rw [ih]
    · simp [List.takeWhile_cons, hc]

theorem matchP2_isSome_containsSub {s : Content}
    (h : (matchP2 s).isSome = true) :
    containsSub "engine.setStream(\"".data s = true := by
  unfold matchP2 at h
  by_cases hind : s.takeWhile isWS = []
  · rw [hind] at h; simp at h
  · simp only [hind, if_false] at h
    cases hs : stripLit "engine.setStream(\"".data
        (s.drop (s.takeWhile isWS).length) with
    | none => rw [hs] at h; simp at h
    | some t1 =>
      have hp := containsSub_of_isPre (stripLit_isPre hs)
      have := containsSub_append_right (s.takeWhile isWS) hp
      rwa [takeWhile_append_drop] at this

theorem matchP3_isSome_containsSub {s : Content}
    (h : (matchP3 s).isSome = true) :
    containsSub "engine.setStream(\"".data s = true := by
  unfold matchP3 at h
  by_cases hind : s.takeWhile isWS = []
  · rw [hind] at h; simp at h
  · simp only [hind, if_false] at h
    cases hs : stripLit "engine.setStream(\"".data
        (s.drop (s.takeWhile isWS).length) with
    | none => rw [hs] at h; simp at h
    | some t1 =>
      have hp := containsSub_of_isPre (stripLit_isPre hs)
      have := containsSub_append_right (s.takeWhile isWS) hp
      rwa [takeWhile_append_drop] at this

/-! ### Counter runs are duplicate-free and compose -/

theorem natRun_le {x : Nat} : ∀ {m k : Nat}, x ∈ natRun k m → k ≤ x := by
  intro m
  induction m with
  | zero => intro k h; simp [natRun] at h
  | succ n ih =>
    intro k h
    simp only [natRun, List.mem_cons] at h
    rcases h with h | h
    · omega
    · have := ih h; omega

theorem natRun_nodup : ∀ (m k : Nat), (natRun k m).Nodup := by
  intro m
  induction m with
  | zero => intro k; simp [natRun]
  | succ n ih =>
    intro k
    simp only [natRun, List.nodup_cons]
    refine ⟨fun h => ?_, ih (k + 1)⟩
    have := natRun_le h
    omega

theorem natRun_append : ∀ (a k b : Nat),
    natRun k a ++ natRun (k + a) b = natRun k (a + b) := by
  intro a
  induction a with
  | zero => intro k b; simp [natRun]
  | succ n ih =>
    intro k b
    have h1 : k + (n + 1) = (k + 1) + n := by omega
    have h2 : n + 1 + b = (n + b) + 1 := by omega
    simp only [natRun, List.cons_append, h1, h2]
    rw [ih (k + 1) b]

/-! ### Literal replacement lemmas -/

theorem replaceAll_of_not_contains {p r : Content} :
    ∀ (fuel : Nat) {t : Content}, containsSub p t = false →
      replaceAll p r fuel t = t := by
  intro fuel
  induction fuel with
  | zero => intro t _; rfl
  | succ f ih =>
    intro t h
    cases t with
    | nil => rfl
    | cons c cs =>
      obtain ⟨h1, h2⟩ := containsSub_false_cons h
      simp only [replaceAll, h1, Bool.false_eq_true, if_false]
      rw [ih h2]

theorem replaceAll_contains {p r mk : Content} (hmk : containsSub mk r = true)
    (hp : p ≠ []) :
    ∀ {t : Content} (fuel : Nat), containsSub p t = true → t.length ≤ fuel →
      containsSub mk (replaceAll p r fuel t) = true := by
  intro t
  induction t with
  | nil =>
    intro fuel h _
    cases p with
    | nil => exact absurd rfl hp
    | cons c cs => simp [containsSub, isPre] at h
  | cons c cs ih =>
    intro fuel h hf
    cases fuel with
    | zero => simp at hf
    | succ f =>
      by_cases hpre : isPre p (c :: cs) = true
      · simp only [replaceAll, hpre, if_true]
        exact containsSub_append_left _ hmk
      · have h2 : containsSub p cs = true := by
          simp only [containsSub, Bool.or_eq_true] at h
          rcases h with h | h
          · exact absurd h hpre
          · exact h
        simp only [replaceAll, hpre, if_false]
        exact containsSub_cons c
          (ih f h2 (by simpa using Nat.le_of_succ_le_succ hf))

/-! ### Decimal rendering is injective -/

theorem digitVal_digitChar : ∀ n < 10, digitVal (digitChar n) = n := by decide

theorem digitChar_ne_newline (n : Nat) : (digitChar n = '\n') = False := by
  unfold digitChar
  split_ifs <;> simp

theorem fromDec_append_digit (l : Content) (c : Char) :
    fromDec (l ++ [c]) = fromDec l * 10 + digitVal c := by
  unfold fromDec
  rw [List.foldl_append]
  rfl

theorem fromDec_toDecAux : ∀ (fuel n : Nat), n < fuel →
    fromDec (toDecAux fuel n) = n := by
  intro fuel
  induction fuel with
  | zero => intro n h; omega
  | succ f ih =>
    intro n h
    by_cases h10 : n < 10
    · simp only [toDecAux, h10, if_true]
      have : fromDec [digitChar n] = digitVal (digitChar n) := by
        unfold fromDec; simp
      rw [this, digitVal_digitChar n h10]
    · simp only [toDecAux, h10, if_false]
      rw [fromDec_append_digit]
      have hlt : n / 10 < f := by
        have := Nat.div_lt_self (by omega : 0 < n) (by omega : 1 < 10)
        omega
      rw [ih (n / 10) hlt, digitVal_digitChar (n % 10) (Nat.mod_lt n (by omega))]
      omega

theorem toDec_inj : Function.Injective toDec := by
  intro a b h
  have ha := fromDec_toDecAux (a + 1) a (Nat.lt_succ_self a)
  have hb := fromDec_toDecAux (b + 1) b (Nat.lt_succ_self b)
  unfold toDec at h
  rw [h] at ha
  rw [hb] at ha
  omega

theorem idOf_inj : Function.Injective idOf := by
  intro a b h
  unfold idOf at h
  exact toDec_inj (List.append_cancel_left h)

theorem noNL_toDec (k : Nat) : noNL (toDec k) = true := by
  unfold toDec
  generalize k + 1 = fuel
  induction fuel generalizing k with
  | zero => rfl
  | succ f ih =>
    by_cases h10 : k < 10
    · simp [toDecAux, h10, noNL, digitChar_ne_newline]
    · simp only [toDecAux, h10, if_false, noNL, List.all_append]
      have h1 := ih (k / 10)
      simp only [noNL] at h1
      simp [h1, digitChar_ne_newline]

/-! ### Line splitting -/

theorem splitLines_noNL {a : Content} (h : noNL a = true) :
    splitLines a = [a] := by
  induction a with
  | nil => rfl
  | cons c cs ih =>
    simp only [noNL, List.all_cons, Bool.and_eq_true, Bool.not_eq_true'] at h
    have hc : ¬ (c = '\n') := by simpa using h.1
    simp only [splitLines, if_neg hc]
    rw [ih (by simpa [noNL] using h.2)]

theorem splitLines_append_nl {a : Content} (r : Content) (h : noNL a = true) :
    splitLines (a ++ '\n' :: r) = a :: splitLines r := by
  induction a with
  | nil => simp [splitLines]
  | cons c cs ih =>
    simp only [noNL, List.all_cons, Bool.and_eq_true, Bool.not_eq_true'] at h
    have hc : ¬ (c = '\n') := by simpa using h.1
    simp only [List.cons_append, splitLines, if_neg hc, List.append_eq]
    rw [ih (by simpa [noNL] using h.2)]

theorem splitLines_joinNL : ∀ {rows : List Content}, rows ≠ [] →
    (∀ l ∈ rows, noNL l = true) → splitLines (joinNL rows) = rows := by
  intro rows
  induction rows with
  | nil => intro h _; exact absurd rfl h
  | cons l ls ih =>
    intro _ hall
    cases ls with
    | nil => exact splitLines_noNL (hall l (by simp))
    | cons l2 ls2 =>
      have : joinNL (l :: l2 :: ls2) = l ++ '\n' :: joinNL (l2 :: ls2) := rfl
      rw [this, splitLines_append_nl _ (hall l (by simp))]
      rw [ih (by simp) (fun x hx => hall x (by simp [hx]))]

/-! ### Support lemmas for idempotent re-application -/

theorem marker_isPre_rend1u (k : Nat) (a : Content × Content × Content) :
    isPre marker (rend1u k a) = true := by
  have h0 : isPre marker "StreamUpdate update".data = true := by decide
  exact isPre_extend _ (isPre_extend _ h0)

theorem addImports_of_marker {c : Content} (h : containsSub marker c = true) :
    addImports c = c := by
  unfold addImports
  rw [if_pos h]

theorem addImports_contains_marker {c : Content} (h : addImports c ≠ c) :
    containsSub marker (addImports c) = true := by
  unfold addImports at *
  by_cases hm : containsSub marker c = true
  · rw [if_pos hm] at h
    exact absurd rfl h
  · rw [if_neg hm] at h ⊢
    by_cases ha : containsSub anchorLine c = true
    · rw [if_pos ha] at h ⊢
      exact replaceAll_contains (by decide) (by decide) c.length ha (Nat.le_refl _)
    · rw [if_neg ha] at h
      exact absurd rfl h

theorem fixContentT_contains_marker {c : Content} (h : fixContentT c ≠ c) :
    containsSub marker (fixContentT c) = true := by
  rcases scanSub_out_eq_or_contains marker_isPre_rend1u
      (addImports c).length 1 (addImports c) with ho | ho
  · have he : fixContentT c = addImports c := ho
    rw [he] at h ⊢
    exact addImports_contains_marker h
  · exact ho

theorem fixContentT_of_no_match {c : Content} (ha : addImports c = c)
    (hnm : hasMatch matchP1 c = false) : fixContentT c = c := by
  unfold fixContentT
  rw [ha, scanSub_of_hasMatch_false c.length 1 hnm]

theorem fixSingleThreadT_of_no_lit {c : Content}
    (h : containsSub setStreamQuoteLit c = false) : fixSingleThreadT c = c := by
  have h2 : hasMatch matchP2 c = false :=
    hasMatch_false (fun _ hs => matchP2_isSome_containsSub hs) h
  have h3 : hasMatch matchP3 c = false :=
    hasMatch_false (fun _ hs => matchP3_isSome_containsSub hs) h
  unfold fixSingleThreadT fixSingleThreadRun
  rw [scanSub_of_hasMatch_false c.length 10 h2]
  simp only
  rw [scanSub_of_hasMatch_false c.length 10 h3]

/-! ### Further substring and counting lemmas -/

theorem noNL_append2 {a b : Content} (ha : noNL a = true) (hb : noNL b = true) :
    noNL (a ++ b) = true := by
  simp only [noNL, List.all_append]
  simp only [noNL] at ha hb
  simp [ha, hb]

theorem containsSub_self (p : Content) : containsSub p p = true := by
  have := containsSub_self_append p []
  simpa using this

theorem containsSub_joinNL {p l : Content} :
    ∀ {rows : List Content}, l ∈ rows → containsSub p l = true →
      containsSub p (joinNL rows) = true := by
  intro rows
  induction rows with
  | nil => intro h _; simp at h
  | cons l2 ls ih =>
    intro hmem hsub
    cases ls with
    | nil =>
      have : l = l2 := by simpa using hmem
      subst this
      exact hsub
    | cons l3 ls3 =>
      have hj : joinNL (l2 :: l3 :: ls3) = l2 ++ '\n' :: joinNL (l3 :: ls3) := rfl
      rw [hj]
      rcases List.mem_cons.mp hmem with h | h
      · subst h
        exact containsSub_append_left _ hsub
      · exact containsSub_append_right _ (containsSub_cons _ (ih h hsub))

theorem countSub_zero_iff {p : Content} (hp : p ≠ []) :
    ∀ {t : Content}, countSub p t = 0 ↔ containsSub p t = false := by
  intro t
  induction t with
  | nil =>
    cases p with
    | nil => exact absurd rfl hp
    | cons c cs => simp [countSub, containsSub, isPre]
  | cons c cs ih =>
    by_cases h : isPre p (c :: cs) = true
    · simp [countSub, containsSub, h]
    · simp only [countSub, containsSub, h, Bool.false_eq_true, if_false,
        Nat.zero_add, Bool.or_eq_false_iff]
      rw [ih]
      simp [h]

theorem isPre_decomp {p : Content} :
    ∀ {t : Content}, isPre p t = true → t = p ++ t.drop p.length := by
  induction p with
  | nil => intro t _; rfl
  | cons c cs ih =>
    intro t h
    cases t with
    | nil => simp [isPre] at h
    | cons d ds =>
      simp only [isPre, Bool.and_eq_true, decide_eq_true_eq] at h
      obtain ⟨rfl, h2⟩ := h
      have := ih h2
      simp only [List.length_cons, List.drop_succ_cons, List.cons_append]
      exact congrArg _ this

theorem containsSub_drop_false {p : Content} :
    ∀ (n : Nat) {t : Content}, containsSub p t = false →
      containsSub p (t.drop n) = false := by
  intro n
  induction n with
  | zero => intro t h; simpa using h
  | succ m ih =>
    intro t h
    cases t with
    | nil => simpa using h
    | cons c cs =>
      simp only [List.drop_succ_cons]
      exact ih (containsSub_false_cons h).2

theorem replaceAll_single {p r : Content} (hp : p ≠ []) :
    ∀ {t : Content} (fuel : Nat), countSub p t = 1 → t.length ≤ fuel →
      ∃ a b, t = a ++ p ++ b ∧ containsSub p a = false ∧
        containsSub p b = false ∧ replaceAll p r fuel t = a ++ r ++ b := by
  intro t
  induction t with
  | nil => intro fuel h _; simp [countSub] at h
  | cons c cs ih =>
    intro fuel h hf
    cases fuel with
    | zero => simp at hf
    | succ f =>
      by_cases hpre : isPre p (c :: cs) = true
      · have hcs0 : countSub p cs = 0 := by
          simp only [countSub, hpre, if_true] at h
          omega
        have hcsf : containsSub p cs = false := (countSub_zero_iff hp).mp hcs0
        have hb : containsSub p ((c :: cs).drop p.length) = false := by
          cases p with
          | nil => exact absurd rfl hp
          | cons q qs =>
            simp only [List.length_cons, List.drop_succ_cons]
            exact containsSub_drop_false qs.length hcsf
        have hnilc : containsSub p ([] : Content) = false := by
          cases p with
          | nil => exact absurd rfl hp
          | cons q qs => simp [containsSub, isPre]
        refine ⟨[], (c :: cs).drop p.length, ?_, hnilc, hb, ?_⟩
        · simpa using isPre_decomp hpre
        · simp only [replaceAll, hpre, if_true, List.nil_append]
          rw [replaceAll_of_not_contains f hb]
      · have hc1 : countSub p cs = 1 := by
          simp only [countSub, hpre, Bool.false_eq_true, if_false] at h
          omega
        obtain ⟨a, b, hab, hca, hcb, hrw⟩ :=
          ih f hc1 (by simpa using Nat.le_of_succ_le_succ hf)
        refine ⟨c :: a, b, by simp [hab], ?_, hcb, ?_⟩
        · simp only [containsSub, Bool.or_eq_false_iff]
          refine ⟨?_, hca⟩
          cases hq : isPre p (c :: a)
          · rfl
          · exfalso
            have : isPre p ((c :: a) ++ (p ++ b)) = true := isPre_extend _ hq
            rw [List.cons_append] at this
            rw [← List.append_assoc] at this
            rw [← hab] at this
            · exact absurd this (by simp [hpre])
        · simp only [replaceAll, hpre, Bool.false_eq_true, if_false]
          rw [hrw]
          simp

/-! ## Claim theorems -/

/-- C1 (amended).  Re-running a file migration is the identity whenever the
first run's output no longer contains the deprecated call literal
(`engine.setStream(` for `fix_test_file`, `engine.setStream("` for
`fix_single_thread_engine_test`, and the exact old call line for
`fix_floor_operation_test`); in that situation the second run of
`fix_test_file` performs no write, returns false and reports
`No changes needed`.  Unconditional idempotence — the original claim — is
false: see the counterexample, where a rewritten argument recombines with
later text into a fresh match. -/
theorem C1_idempotent_when_output_pattern_free (c : Content) :
    (containsSub setStreamLit (fixContentT c) = false →
      fixContentT (fixContentT c) = fixContentT c ∧
      fixTestFile (fixContentT c) =
        ⟨fixContentT c, false, false, Report.noChangesMsg⟩) ∧
    (containsSub setStreamQuoteLit (fixSingleThreadT c) = false →
      fixSingleThreadT (fixSingleThreadT c) = fixSingleThreadT c) ∧
    (containsSub oldCall (fixFloorT c) = false →
      fixFloorT (fixFloorT c) = fixFloorT c) := by
  refine ⟨?_, ?_, ?_⟩
  · intro h
    have hnm : hasMatch matchP1 (fixContentT c) = false :=
      hasMatch_false (fun _ hs => matchP1_isSome_containsSub hs) h
    have hfix : fixContentT (fixContentT c) = fixContentT c := by
      by_cases hyc : fixContentT c = c
      · rw [hyc]; exact hyc
      · exact fixContentT_of_no_match
          (addImports_of_marker (fixContentT_contains_marker hyc)) hnm
    refine ⟨hfix, ?_⟩
    unfold fixTestFile
    rw [if_neg (by simp [hfix])]
  · intro h
    exact fixSingleThreadT_of_no_lit (fixSingleThreadT_of_no_lit h ▸ h)
  · intro h
    unfold fixFloorT
    exact replaceAll_of_not_contains _ h

/-- Witness for C1 at a concrete file whose migrated form contains no
residual call pattern. -/
theorem C1_witness :
    containsSub setStreamLit (fixContentT "x".data) = false ∧
    fixContentT (fixContentT "x".data) = fixContentT "x".data ∧
    containsSub setStreamQuoteLit (fixSingleThreadT "x".data) = false ∧
    fixSingleThreadT (fixSingleThreadT "x".data) = fixSingleThreadT "x".data ∧
    containsSub oldCall (fixFloorT "x".data) = false ∧
    fixFloorT (fixFloorT "x".data) = fixFloorT "x".data :=
  ⟨by decide,
    ((C1_idempotent_when_output_pattern_free "x".data).1 (by decide)).1,
    by decide,
    (C1_idempotent_when_output_pattern_free "x".data).2.1 (by decide),
    by decide,
    (C1_idempotent_when_output_pattern_free "x".data).2.2 (by decide)⟩

set_option maxRecDepth 40000 in
/-- C1 counterexample.  Applying `fix_test_file`'s transformation twice to
`c1x` differs from applying it once, and the second run reports a change
(returns true), contradicting the claim that a second application always
finds no difference. -/
theorem C1_counterexample :
    fixContentT (fixContentT c1x) ≠ fixContentT c1x ∧
    (fixTestFile (fixContentT c1x)).returned = true := by
  constructor
  · decide
  · decide

/-- C3 (amended).  A file with zero occurrences of the deprecated pattern is
returned byte-identical with no write and a `No changes needed` report,
provided the import-augmentation step also does not fire (marker already
present, or anchor import line absent).  Without that proviso the original
claim is false: see the counterexample, where a pattern-free file is still
rewritten by the import insertion. -/
theorem C3_noop_on_absent_pattern (c : Content)
    (hnm : hasMatch matchP1 c = false)
    (himp : containsSub marker c = true ∨ containsSub anchorLine c = false) :
    fixTestFile c = ⟨c, false, false, Report.noChangesMsg⟩ := by
  have ha : addImports c = c := by
    rcases himp with h | h
    · exact addImports_of_marker h
    · unfold addImports
      by_cases hm : containsSub marker c = true
      · rw [if_pos hm]
      · rw [if_neg hm, if_neg (by simp [h])]
  have hfix : fixContentT c = c := fixContentT_of_no_match ha hnm
  simp [fixTestFile, hfix]

/-- Witness for C3 on a concrete pattern-free, anchor-free file. -/
theorem C3_witness :
    hasMatch matchP1 "hello".data = false ∧
    fixTestFile "hello".data =
      ⟨"hello".data, false, false, Report.noChangesMsg⟩ :=
  ⟨by decide, C3_noop_on_absent_pattern "hello".data (by decide)
    (Or.inr (by decide))⟩

set_option maxRecDepth 20000 in
/-- C3 counterexample.  A file consisting of just the anchor import line
contains zero occurrences of the deprecated pattern, yet `fix_test_file`
rewrites it (the import augmentation inserts two lines), writes it back,
returns true, and reports `Fixed` — contradicting the claim that any
pattern-free file is returned byte-identical with `No changes needed`. -/
theorem C3_counterexample :
    hasMatch matchP1 anchorLine = false ∧
    (fixTestFile anchorLine).wrote = true ∧
    (fixTestFile anchorLine).returned = true ∧
    (fixTestFile anchorLine).report = Report.fixedMsg ∧
    (fixTestFile anchorLine).fileText ≠ anchorLine :=
  ⟨by decide, by decide, by decide, by decide, by decide⟩

/-- C4.  `fix_test_file` writes back exactly when the transformed text
differs from the original, its boolean result equals the write decision,
`Fixed` is reported exactly on a change (otherwise `No changes needed`),
and the resulting on-disk text is the transformed text (which is the
original text when nothing changed). -/
theorem C4_writeback_iff_changed (c : Content) :
    ((fixTestFile c).wrote = true ↔ fixContentT c ≠ c) ∧
    (fixTestFile c).returned = (fixTestFile c).wrote ∧
    ((fixTestFile c).report = Report.fixedMsg ↔ fixContentT c ≠ c) ∧
    (fixTestFile c).fileText = fixContentT c := by
  unfold fixTestFile
  by_cases h : fixContentT c ≠ c
  · rw [if_pos h]
    exact ⟨by simp [h], rfl, by simp [h], rfl⟩
  · rw [if_neg h]
    push_neg at h
    refine ⟨by simp [h], rfl, ?_, h.symm⟩
    constructor
    · intro hk; exact absurd hk (by simp)
    · intro hk; exact absurd h hk

set_option maxRecDepth 20000 in
/-- Witness for C4: a changed file is written, an unchanged one is not. -/
theorem C4_witness :
    (fixTestFile anchorLine).wrote = true ∧
    (fixTestFile "z".data).wrote = false :=
  ⟨(C4_writeback_iff_changed anchorLine).1.mpr (by decide),
    by
      have h := (C4_writeback_iff_changed "z".data).1
      have hne : ¬ ((fixTestFile "z".data).wrote = true) :=
        fun hw => (h.mp hw) (by decide)
      simpa using hne⟩

/-- C10.  On a file containing neither the marker `StreamUpdate` nor the
anchor import line, the import-augmentation step of `fix_test_file` leaves
the text unchanged (the anchor search finds nothing and is skipped, no
error is raised — the model is a total function), so the whole
transformation is exactly the call-site substitution pass. -/
theorem C10_skipped_import_step (c : Content)
    (hm : containsSub marker c = false)
    (ha : containsSub anchorLine c = false) :
    addImports c = c ∧
    fixContentT c = (scanSub matchP1 rend1u c.length 1 c).2.1 := by
  have h1 : addImports c = c := by
    unfold addImports
    rw [if_neg (by simp [hm]), if_neg (by simp [ha])]
  exact ⟨h1, by unfold fixContentT; rw [h1]⟩

/-- Witness for C10 on a concrete marker-free, anchor-free file. -/
theorem C10_witness :
    containsSub marker "abc".data = false ∧
    containsSub anchorLine "abc".data = false ∧
    addImports "abc".data = "abc".data :=
  ⟨by decide, by decide,
    (C10_skipped_import_step "abc".data (by decide) (by decide)).1⟩

/-- C5.  Within one file migration the generated `update<counter>` names
are pairwise distinct: in `fix_single_thread_engine_test` the counters
consumed across the single-line and the multi-line pass form one
consecutive run starting at 10 (the counter is never reset between the two
passes), in `fix_test_file` one consecutive run starting at 1, and mapping
counters to identifiers is injective, so the identifier lists are
duplicate-free for any number of matched call sites. -/
theorem C5_identifier_uniqueness (c : Content) :
    (∃ m, usedSingleThread c = natRun 10 m) ∧
    (List.map idOf (usedSingleThread c)).Nodup ∧
    (∃ m, usedFixTest c = natRun 1 m) ∧
    (List.map idOf (usedFixTest c)).Nodup := by
  have hS : ∃ m, usedSingleThread c = natRun 10 m := by
    obtain ⟨h1le, h1run⟩ := @scanSub_counters _ matchP2 rend2u c.length 10 c
    obtain ⟨h2le, h2run⟩ := @scanSub_counters _ matchP3 rend2u
      (scanSub matchP2 rend2u c.length 10 c).2.1.length
      (scanSub matchP2 rend2u c.length 10 c).1
      (scanSub matchP2 rend2u c.length 10 c).2.1
    refine ⟨((scanSub matchP2 rend2u c.length 10 c).1 - 10) +
      ((scanSub matchP3 rend2u
          (scanSub matchP2 rend2u c.length 10 c).2.1.length
          (scanSub matchP2 rend2u c.length 10 c).1
          (scanSub matchP2 rend2u c.length 10 c).2.1).1 -
        (scanSub matchP2 rend2u c.length 10 c).1), ?_⟩
    unfold usedSingleThread fixSingleThreadRun
    simp only
    rw [h1run, h2run]
    have harith : (scanSub matchP2 rend2u c.length 10 c).1 =
        10 + ((scanSub matchP2 rend2u c.length 10 c).1 - 10) := by omega
    calc natRun 10 ((scanSub matchP2 rend2u c.length 10 c).1 - 10) ++
          natRun (scanSub matchP2 rend2u c.length 10 c).1 _ =
        natRun 10 ((scanSub matchP2 rend2u c.length 10 c).1 - 10) ++
          natRun (10 + ((scanSub matchP2 rend2u c.length 10 c).1 - 10)) _ := by
            rw [← harith]
      _ = _ := natRun_append _ 10 _
  have hT : ∃ m, usedFixTest c = natRun 1 m := by
    obtain ⟨hle, hrun⟩ := @scanSub_counters _ matchP1 rend1u
      (addImports c).length 1 (addImports c)
    exact ⟨_, hrun⟩
  obtain ⟨m1, hm1⟩ := hS
  obtain ⟨m2, hm2⟩ := hT
  refine ⟨⟨m1, hm1⟩, ?_, ⟨m2, hm2⟩, ?_⟩
  · rw [hm1]; exact (natRun_nodup m1 10).map idOf_inj
  · rw [hm2]; exact (natRun_nodup m2 1).map idOf_inj

/-- C2 (amended).  For the `fix_remaining_setstream.py` templates, when the
captured whitespace group and the arguments contain no newline, the
rendered block splits into exactly seven lines, each non-first line
prefixed by the captured group — exactly for the final invoke line, plus
one 4-space continuation indent for the builder lines.  The
`fix_test_migration.py` template instead carries fixed 8-space continuation
and 4-space invoke indents, so it preserves only 4-space call-site
indentation; and the captured `\s+` group of `fix_remaining_setstream.py`
normally includes the preceding newline, in which case blank lines appear
between the rows (see the counterexample for the original claim). -/
theorem C2_indentation_of_templates (ind n v y : Content) (k : Nat)
    (hind : noNL ind = true) (hn : noNL n = true) (hv : noNL v = true)
    (hy : noNL y = true) :
    splitLines (rend2 ind k n v y) =
      [ ind ++ "StreamUpdate update".data ++ toDec k ++ " = new StreamUpdateBuilder()".data,
        ind ++ "    .setName(\"".data ++ n ++ "\")".data,
        ind ++ "    .setValue(".data ++ v ++ ")".data,
        ind ++ "    .setYearMatcher(".data ++ y ++ ")".data,
        ind ++ "    .inferSubtractRecycling()".data,
        ind ++ "    .build();".data,
        ind ++ "engine.executeStreamUpdate(update".data ++ toDec k ++ ");".data ] ∧
    splitLines (rend1 k n v y) =
      [ "StreamUpdate update".data ++ toDec k ++ " = new StreamUpdateBuilder()".data,
        "        .setName(".data ++ n ++ ")".data,
        "        .setValue(".data ++ v ++ ")".data,
        "        .setYearMatcher(".data ++ y ++ ")".data,
        "        .inferSubtractRecycling()".data,
        "        .build();".data,
        "    engine.executeStreamUpdate(update".data ++ toDec k ++ ");".data ] := by
  constructor
  · unfold rend2
    refine splitLines_joinNL (by simp) ?_
    intro l hl
    simp only [List.mem_cons, List.not_mem_nil, or_false] at hl
    rcases hl with rfl | rfl | rfl | rfl | rfl | rfl | rfl
    · exact noNL_append2
        (noNL_append2 (noNL_append2 hind (by decide)) (noNL_toDec k)) (by decide)
    · exact noNL_append2 (noNL_append2 (noNL_append2 hind (by decide)) hn) (by decide)
    · exact noNL_append2 (noNL_append2 (noNL_append2 hind (by decide)) hv) (by decide)
    · exact noNL_append2 (noNL_append2 (noNL_append2 hind (by decide)) hy) (by decide)
    · exact noNL_append2 hind (by decide)
    · exact noNL_append2 hind (by decide)
    · exact noNL_append2
        (noNL_append2 (noNL_append2 hind (by decide)) (noNL_toDec k)) (by decide)
  · unfold rend1
    refine splitLines_joinNL (by simp) ?_
    intro l hl
    simp only [List.mem_cons, List.not_mem_nil, or_false] at hl
    rcases hl with rfl | rfl | rfl | rfl | rfl | rfl | rfl
    · exact noNL_append2 (noNL_append2 (by decide) (noNL_toDec k)) (by decide)
    · exact noNL_append2 (noNL_append2 (by decide) hn) (by decide)
    · exact noNL_append2 (noNL_append2 (by decide) hv) (by decide)
    · exact noNL_append2 (noNL_append2 (by decide) hy) (by decide)
    · decide
    · decide
    · exact noNL_append2 (noNL_append2 (by decide) (noNL_toDec k)) (by decide)

/-- Witness for C2 at concrete indentation and arguments. -/
theorem C2_witness :
    noNL "  ".data = true ∧
    splitLines (rend2 "  ".data 3 "nm".data "vv".data "yy".data) =
      [ "  ".data ++ "StreamUpdate update".data ++ toDec 3 ++ " = new StreamUpdateBuilder()".data,
        "  ".data ++ "    .setName(\"".data ++ "nm".data ++ "\")".data,
        "  ".data ++ "    .setValue(".data ++ "vv".data ++ ")".data,
        "  ".data ++ "    .setYearMatcher(".data ++ "yy".data ++ ")".data,
        "  ".data ++ "    .inferSubtractRecycling()".data,
        "  ".data ++ "    .build();".data,
        "  ".data ++ "engine.executeStreamUpdate(update".data ++ toDec 3 ++ ");".data ] :=
  ⟨by decide,
    (C2_indentation_of_templates "  ".data "nm".data "vv".data "yy".data 3
      (by decide) (by decide) (by decide) (by decide)).1⟩

set_option maxRecDepth 20000 in
/-- C2 counterexample.  For the call site in `c2x`, whose leading
indentation string is eight spaces, the block generated by
`fix_test_migration.py` has `.setName` line indented eight spaces — not the
claimed indentation-plus-4 of twelve — and a final invoke line indented
four spaces, which does not begin with the call site's indentation. -/
theorem C2_counterexample :
    (splitLines (fixContentT c2x)).getD 1 [] = "        .setName(a)".data ∧
    isPre ("        ".data ++ "    ".data) "        .setName(a)".data = false ∧
    (splitLines (fixContentT c2x)).getLastD [] =
      "    engine.executeStreamUpdate(update1);".data ∧
    isPre "        ".data "    engine.executeStreamUpdate(update1);".data = false :=
  ⟨by decide, by decide, by decide, by decide⟩

/-- C6 (amended).  When the marker is absent and the anchor import line
occurs exactly once, the import-augmentation step of `fix_test_file`
inserts the two import lines exactly once, immediately after the anchor
line, leaving the anchor itself unmodified; when the marker is present
anywhere the step leaves the text unchanged.  When the anchor occurs more
than once the insertion is duplicated after every occurrence (see the
counterexample), which is what forces the exactly-once proviso. -/
theorem C6_import_insertion (c : Content) :
    (containsSub marker c = true → addImports c = c) ∧
    (containsSub marker c = false → countSub anchorLine c = 1 →
      ∃ a b, c = a ++ anchorLine ++ b ∧ containsSub anchorLine a = false ∧
        containsSub anchorLine b = false ∧
        addImports c = a ++ anchorLine ++ importsTail ++ b) := by
  refine ⟨fun h => addImports_of_marker h, fun hm h1 => ?_⟩
  have hcont : containsSub anchorLine c = true := by
    cases hq : containsSub anchorLine c
    · have h0 := (countSub_zero_iff (p := anchorLine) (by decide)).mpr hq
      omega
    · rfl
  obtain ⟨a, b, hab, hca, hcb, hrw⟩ :=
    @replaceAll_single anchorLine newImports (by decide) c c.length h1 (Nat.le_refl _)
  have haddi : addImports c = replaceAll anchorLine newImports c.length c := by
    unfold addImports
    rw [if_neg (by simp [hm]), if_pos hcont]
  refine ⟨a, b, hab, hca, hcb, ?_⟩
  rw [haddi, hrw]
  have hni : newImports = anchorLine ++ importsTail := rfl
  rw [hni]
  simp [List.append_assoc]

/-- Witness for C6 on a file holding the anchor exactly once. -/
theorem C6_witness :
    containsSub marker c6w = false ∧ countSub anchorLine c6w = 1 ∧
    (∃ a b, c6w = a ++ anchorLine ++ b ∧ containsSub anchorLine a = false ∧
      containsSub anchorLine b = false ∧
      addImports c6w = a ++ anchorLine ++ importsTail ++ b) :=
  ⟨by decide, by decide, (C6_import_insertion c6w).2 (by decide) (by decide)⟩

set_option maxRecDepth 40000 in
/-- C6 counterexample.  In a marker-free file containing the anchor import
line twice, `fix_test_file` inserts the import lines after every anchor
occurrence: the first inserted import line appears twice in the output,
contradicting "inserted exactly once". -/
theorem C6_counterexample :
    containsSub marker c6x = false ∧
    containsSub anchorLine c6x = true ∧
    countSub importLineA c6x = 0 ∧
    countSub importLineA (fixContentT c6x) = 2 :=
  ⟨by decide, by decide, by decide, by decide⟩

/-- C7.  The captured argument texts are substituted verbatim: for any
captured `name`, `value` and `yearMatcher` and any counter, the rendered
block of `fix_test_migration.py` contains `.setName(<name>)`,
`.setValue(<value>)` and `.setYearMatcher(<yearMatcher>)` with the captured
substrings unmodified, and likewise the shared template of
`fix_remaining_setstream.py` (whose name argument is re-quoted around the
verbatim capture). -/
theorem C7_argument_fidelity (k : Nat) (ind n v y : Content) :
    containsSub (".setName(".data ++ n ++ ")".data) (rend1 k n v y) = true ∧
    containsSub (".setValue(".data ++ v ++ ")".data) (rend1 k n v y) = true ∧
    containsSub (".setYearMatcher(".data ++ y ++ ")".data) (rend1 k n v y) = true ∧
    containsSub (".setName(\"".data ++ n ++ "\")".data) (rend2 ind k n v y) = true ∧
    containsSub (".setValue(".data ++ v ++ ")".data) (rend2 ind k n v y) = true ∧
    containsSub (".setYearMatcher(".data ++ y ++ ")".data) (rend2 ind k n v y) = true := by
  unfold rend1 rend2
  refine ⟨?_, ?_, ?_, ?_, ?_, ?_⟩
  · have hsub : containsSub (".setName(".data ++ n ++ ")".data)
        ("        .setName(".data ++ n ++ ")".data) = true := by
      have hs : ("        .setName(").data = "        ".data ++ ".setName(".data := by decide
      rw [hs]
      simp only [List.append_assoc]
      exact containsSub_append_right _ (containsSub_self _)
    exact containsSub_joinNL (by simp) hsub
  · have hsub : containsSub (".setValue(".data ++ v ++ ")".data)
        ("        .setValue(".data ++ v ++ ")".data) = true := by
      have hs : ("        .setValue(").data = "        ".data ++ ".setValue(".data := by decide
      rw [hs]
      simp only [List.append_assoc]
      exact containsSub_append_right _ (containsSub_self _)
    exact containsSub_joinNL (by simp) hsub
  · have hsub : containsSub (".setYearMatcher(".data ++ y ++ ")".data)
        ("        .setYearMatcher(".data ++ y ++ ")".data) = true := by
      have hs : ("        .setYearMatcher(").data =
          "        ".data ++ ".setYearMatcher(".data := by decide
      rw [hs]
      simp only [List.append_assoc]
      exact containsSub_append_right _ (containsSub_self _)
    exact containsSub_joinNL (by simp) hsub
  · have hsub : containsSub (".setName(\"".data ++ n ++ "\")".data)
        (ind ++ "    .setName(\"".data ++ n ++ "\")".data) = true := by
      have hs : ("    .setName(\"").data = "    ".data ++ ".setName(\"".data := by decide
      rw [hs]
      simp only [List.append_assoc]
      exact containsSub_append_right _ (containsSub_append_right _ (containsSub_self _))
    exact containsSub_joinNL (by simp) hsub
  · have hsub : containsSub (".setValue(".data ++ v ++ ")".data)
        (ind ++ "    .setValue(".data ++ v ++ ")".data) = true := by
      have hs : ("    .setValue(").data = "    ".data ++ ".setValue(".data := by decide
      rw [hs]
      simp only [List.append_assoc]
      exact containsSub_append_right _ (containsSub_append_right _ (containsSub_self _))
    exact containsSub_joinNL (by simp) hsub
  · have hsub : containsSub (".setYearMatcher(".data ++ y ++ ")".data)
        (ind ++ "    .setYearMatcher(".data ++ y ++ ")".data) = true := by
      have hs : ("    .setYearMatcher(").data =
          "    ".data ++ ".setYearMatcher(".data := by decide
      rw [hs]
      simp only [List.append_assoc]
      exact containsSub_append_right _ (containsSub_append_right _ (containsSub_self _))
    exact containsSub_joinNL (by simp) hsub

theorem runBatch_events_and_count (ps : List String) : ∀ (fs : FS),
    (runBatch fs ps).1.map eventPath = ps ∧
    (runBatch fs ps).2.1 = ((runBatch fs ps).1.filter isFixedEvent).length := by
  induction ps with
  | nil => intro fs; exact ⟨rfl, rfl⟩
  | cons p ps ih =>
    intro fs
    cases hfs : fs p with
    | none =>
      obtain ⟨h1, h2⟩ := ih fs
      simp only [runBatch, hfs]
      constructor
      · simp [eventPath, h1]
      · simp [List.filter, isFixedEvent, h2]
    | some c =>
      obtain ⟨h1, h2⟩ := ih (if (fixTestFile c).wrote then
        fun q => if q = p then some (fixTestFile c).fileText else fs q else fs)
      simp only [runBatch, hfs]
      cases hr : (fixTestFile c).returned
      · simp only [hr, if_false, Bool.false_eq_true]
        constructor
        · simp only [List.map_cons, eventPath]
          simp [h1]
        · simp [List.filter, isFixedEvent, h2]
      · simp only [hr, if_true]
        constructor
        · simp only [List.map_cons, eventPath]
          simp [h1]
        · simp [List.filter, isFixedEvent, h2, Nat.add_comm]

theorem runBatch_missing_stays (ps : List String) : ∀ (fs : FS) (q : String),
    fs q = none → (runBatch fs ps).2.2 q = none := by
  induction ps with
  | nil => intro fs q hq; exact hq
  | cons p ps ih =>
    intro fs q hq
    cases hfs : fs p with
    | none =>
      simp only [runBatch, hfs]
      exact ih fs q hq
    | some c =>
      simp only [runBatch, hfs]
      refine ih _ q ?_
      by_cases hw : (fixTestFile c).wrote = true
      · simp only [hw, if_true]
        have hqp : ¬ (q = p) := fun h => by rw [h, hfs] at hq; cases hq
        simp [hqp, hq]
      · simp only [Bool.not_eq_true] at hw
        simp [hw, hq]

theorem runBatch_notFound_at (ps : List String) : ∀ (fs : FS) (i : Nat)
    (h : i < ps.length), fs (ps.get ⟨i, h⟩) = none →
    (runBatch fs ps).1.get? i = some (Event.notFound (ps.get ⟨i, h⟩)) := by
  induction ps with
  | nil => intro fs i h _; simp at h
  | cons p ps ih =>
    intro fs i h hmiss
    cases i with
    | zero =>
      have hp : fs p = none := hmiss
      simp only [runBatch, hp]
      rfl
    | succ j =>
      have hj : j < ps.length := Nat.lt_of_succ_lt_succ h
      have hmiss2 : fs (ps.get ⟨j, hj⟩) = none := hmiss
      cases hfs : fs p with
      | none =>
        simp only [runBatch, hfs]
        exact ih fs j hj hmiss2
      | some c =>
        simp only [runBatch, hfs]
        refine ih _ j hj ?_
        by_cases hw : (fixTestFile c).wrote = true
        · simp only [hw, if_true]
          have hqp : ¬ (ps.get ⟨j, hj⟩ = p) := fun he => by
            rw [he, hfs] at hmiss2; cases hmiss2
          simp only [List.get_eq_getElem] at hqp hmiss2
          simp [hqp, hmiss2]
        · simp only [Bool.not_eq_true] at hw
          simp only [List.get_eq_getElem] at hmiss2
          simp [hw, hmiss2]

/-- C9.  For the fixed file list of `main` in `fix_test_migration.py`: every
listed path missing from the filesystem produces a `File not found` event at
its own position, the path is never written (it is still missing
afterwards, the driver was not invoked on it), the remaining paths are
processed in list order (the event list mirrors the path list), and the
final count equals the number of `Fixed` events, which excludes every
skipped path. -/
theorem C9_missing_file_skipped (fs : FS) (i : Nat)
    (h : i < testFiles.length)
    (hmiss : fs (testFiles.get ⟨i, h⟩) = none) :
    (runBatch fs testFiles).1.map eventPath = testFiles ∧
    (runBatch fs testFiles).1.get? i =
      some (Event.notFound (testFiles.get ⟨i, h⟩)) ∧
    (runBatch fs testFiles).2.1 =
      ((runBatch fs testFiles).1.filter isFixedEvent).length ∧
    (runBatch fs testFiles).2.2 (testFiles.get ⟨i, h⟩) = none := by
  obtain ⟨h1, h2⟩ := runBatch_events_and_count testFiles fs
  exact ⟨h1, runBatch_notFound_at testFiles fs i h hmiss, h2,
    runBatch_missing_stays testFiles fs _ hmiss⟩

set_option maxRecDepth 40000 in
/-- Witness for C9: on an empty filesystem the first listed path is
reported as not found at position 0 and the final count is the number of
`Fixed` events. -/
theorem C9_witness :
    (fun _ : String => (none : Option Content)) (testFiles.get ⟨0, by decide⟩) = none ∧
    (runBatch (fun _ => none) testFiles).1.get? 0 =
      some (Event.notFound (testFiles.get ⟨0, by decide⟩)) ∧
    (runBatch (fun _ => none) testFiles).2.2 (testFiles.get ⟨0, by decide⟩) = none :=
  ⟨rfl,
    (C9_missing_file_skipped (fun _ => none) 0 (by decide) rfl).2.1,
    (C9_missing_file_skipped (fun _ => none) 0 (by decide) rfl).2.2.2⟩

set_option maxRecDepth 40000 in
/-- C8.  The exact `engine.setStream("import", ...)` line of
`FloorOperationTest` is migrated by `fix_floor_operation_test` to the
7-line builder block: the transformation maps the line (alone, and inside a
surrounding file) to the block, the block has seven lines, its first and
last lines are as claimed, and the five intermediate lines carry four
additional spaces of indentation over the outer four. -/
theorem C8_floor_end_to_end :
    fixFloorT oldCall = newCall ∧
    fixFloorT ("  // before\n".data ++ oldCall ++ "\n  // after".data) =
      "  // before\n".data ++ newCall ++ "\n  // after".data ∧
    (splitLines newCall).length = 7 ∧
    (splitLines newCall).getD 0 [] =
      "    StreamUpdate importUpdate = new StreamUpdateBuilder()".data ∧
    (splitLines newCall).getD 6 [] =
      "    engine.executeStreamUpdate(importUpdate);".data ∧
    isPre "        ".data ((splitLines newCall).getD 1 []) = true ∧
    isPre "        ".data ((splitLines newCall).getD 2 []) = true ∧
    isPre "        ".data ((splitLines newCall).getD 3 []) = true ∧
    isPre "        ".data ((splitLines newCall).getD 4 []) = true ∧
    isPre "        ".data ((splitLines newCall).getD 5 []) = true := by
  refine ⟨by decide, by decide, by decide, by decide, by decide,
    by decide, by decide, by decide, by decide, by decide⟩

end Kigali
